import Mathlib

/-!
Verification of the AreaControl occupant-localization core.

This file gives a shallow embedding of the two occupant-localization
engines of the repository:

* the particle-filter tracker of `src/modules/advanced_tracker.py`
  (`RoomGraph`, `SensorModel`, `Particle`, `PersonTracker`,
  `MultiPersonTracker`), and
* the deterministic track-association engine of `src/modules/tracker.py`
  (`Event`, `Track`, `TrackManager`, `GraphManager`).

Timestamps, probabilities and particle weights are modelled as rationals
(the Python code uses floats; none of the verified properties depends on
rounding).  Python dictionaries keyed by room name are modelled as
functions `String → _` together with pointwise update; insertion-ordered
dictionaries whose iteration order matters (`people`, the per-tracker
room counters) are modelled as association lists.  Randomness
(`random.random()`, `random.choice`) is modelled by explicit draw
streams supplied as arguments: a draw in `[0,1)` for each call of
`random.random()` and an arbitrary index (taken modulo the list length)
for each call of `random.choice`.  Code that can raise a Python
exception (`networkx` lookups on absent nodes) is modelled in
`Except String`.
-/

namespace AreaControl

/-- Pointwise update of a string-keyed map, modelling `d[k] = v`. -/
def strUpdate {α : Type} (f : String → α) (k : String) (v : α) : String → α :=
  fun x => if x = k then v else f x

/-! ## RoomGraph (advanced_tracker.py, class RoomGraph)

The adjacency structure of `networkx.Graph` is modelled as an
association list from each node to its neighbour list. -/

structure RoomGraph where
  adj : List (String × List String)

/-- The node set of the graph, in insertion order. -/
def RoomGraph.nodes (g : RoomGraph) : List String :=
  g.adj.map Prod.fst

/-- Neighbour list of a node assumed present (used internally by BFS). -/
def RoomGraph.neighborsD (g : RoomGraph) (room : String) : List String :=
  (g.adj.lookup room).getD []

/-- `RoomGraph.get_neighbors`: `list(self.graph.neighbors(room_id))`.
`networkx` raises `NetworkXError` when the node is absent, modelled as
`Except.error`. -/
def RoomGraph.get_neighbors (g : RoomGraph) (room_id : String) :
    Except String (List String) :=
  if room_id ∈ g.nodes then .ok (g.neighborsD room_id) else .error "node not in graph"

/-! ## SensorModel (advanced_tracker.py, class SensorModel) -/

structure SensorModel where
  cooldown : ℚ
  floor_prob : ℚ
  /-- `self.last_fire`, a `defaultdict(lambda: 0.0)`. -/
  last_fire : String → ℚ
  /-- `self.presence`, a plain dict: absent key modelled as `none`. -/
  presence : String → Option Bool
  /-- `self.motion_state`, a `defaultdict(lambda: False)`. -/
  motion_state : String → Bool

/-- A `SensorModel()` with the constructor defaults
(`cooldown=420`, `floor_prob=0.05`). -/
def SensorModel.default : SensorModel :=
  { cooldown := 420
    floor_prob := 1/20
    last_fire := fun _ => 0
    presence := fun _ => none
    motion_state := fun _ => false }

/-- `SensorModel.record_trigger`: ignored while the room is already in
the active motion state with the cooldown not yet elapsed; otherwise
sets the motion state and the last-fire time. -/
def SensorModel.record_trigger (m : SensorModel) (room_id : String) (now : ℚ) :
    SensorModel :=
  if m.motion_state room_id ∧ now - m.last_fire room_id < m.cooldown then m
  else
    { m with
      motion_state := strUpdate m.motion_state room_id true
      last_fire := strUpdate m.last_fire room_id now }

/-- `SensorModel.set_presence`. -/
def SensorModel.set_presence (m : SensorModel) (room_id : String) (present : Bool) :
    SensorModel :=
  { m with presence := fun x => if x = room_id then some present else m.presence x }

/-- `SensorModel.likelihood_still_present`.  The method both returns a
likelihood and may clear the motion state, so it is modelled as
returning the value together with the updated model. -/
def SensorModel.likelihood_still_present (m : SensorModel) (room_id : String)
    (now : ℚ) : ℚ × SensorModel :=
  match m.presence room_id with
  | some true => (1, m)
  | some false => (0, m)
  | none =>
    let last := m.last_fire room_id
    let state := m.motion_state room_id
    let dt := now - last
    if state ∧ dt < m.cooldown then (1, m)
    else if state ∧ dt ≥ m.cooldown then
      (m.floor_prob, { m with motion_state := strUpdate m.motion_state room_id false })
    else (m.floor_prob, m)

/-! ## Particle / PersonTracker (advanced_tracker.py) -/

structure Particle where
  room : String
  weight : ℚ
deriving DecidableEq

/-- `Particle.move`: with neighbours present and `random.random() >
stay_prob`, jump to `random.choice(neighbors)`; the choice is modelled
by an arbitrary index reduced modulo the neighbour count. -/
def Particle.move (p : Particle) (room_graph : RoomGraph) (stay_prob : ℚ)
    (r : ℚ) (choice : ℕ) : Except String Particle := do
  let neighbors ← room_graph.get_neighbors p.room
  if neighbors ≠ [] ∧ r > stay_prob then
    pure { p with room := neighbors.getD (choice % neighbors.length) p.room }
  else
    pure p

structure PersonTracker where
  stay_prob : ℚ
  particles : List Particle
  last_sensor_room : Option String
  last_sensor_time : ℚ

/-- Room-occurrence counters built exactly as the Python
`defaultdict(int)` loop does: first appearance appends a key, later
appearances increment it in place. -/
def bumpCount : List (String × ℕ) → String → List (String × ℕ)
  | [], r => [(r, 1)]
  | (a, c) :: rest, r =>
    if a = r then (a, c + 1) :: rest else (a, c) :: bumpCount rest r

def countsOf (ps : List Particle) : List (String × ℕ) :=
  ps.foldl (fun acc p => bumpCount acc p.room) []

/-- Python `max(items, key=...)`: keeps the first item, replacing it
only on a strictly larger key. -/
def maxByCount (best : String × ℕ) : List (String × ℕ) → String × ℕ
  | [] => best
  | y :: ys => maxByCount (if y.2 > best.2 then y else best) ys

/-- `PersonTracker.estimate`. -/
def PersonTracker.estimate (tk : PersonTracker) : String :=
  match countsOf tk.particles with
  | [] => "unknown"
  | x :: xs => (maxByCount x xs).1

/-- `PersonTracker.distribution`. -/
def PersonTracker.distribution (tk : PersonTracker) : List (String × ℚ) :=
  let total := tk.particles.length
  if total = 0 then []
  else (countsOf tk.particles).map (fun rc => (rc.1, (rc.2 : ℚ) / (total : ℚ)))

/-- The reweighting loop of `PersonTracker.update`: each particle's
weight becomes the sensor likelihood of its room (threading the sensor
model, which the likelihood call may mutate), doubled when the room
equals a truthy `last_sensor_room`. -/
def reweight (sm : SensorModel) (lsr : Option String) (now : ℚ) :
    List Particle → List Particle × SensorModel
  | [] => ([], sm)
  | p :: ps =>
    let ws := sm.likelihood_still_present p.room now
    let w :=
      match lsr with
      | some r => if r ≠ "" ∧ p.room = r then ws.1 * 2 else ws.1
      | none => ws.1
    let rest := reweight ws.2 lsr now ps
    ({ p with weight := w } :: rest.1, rest.2)

/-- The running cumulative table `acc += w / total` of the resampling
step. -/
def cumulativeFrom (acc total : ℚ) : List ℚ → List ℚ
  | [] => []
  | w :: ws => (acc + w / total) :: cumulativeFrom (acc + w / total) total ws

/-- The resampling step of `PersonTracker.update`: normalise (treating
a zero total as `1.0`), then for each output slot draw `r` and append a
fresh particle for the first cumulative entry with `r ≤ c`; when no
entry qualifies nothing is appended. -/
def resample (ps : List Particle) (draws : ℕ → ℚ) : List Particle :=
  let weights := ps.map Particle.weight
  let total0 := weights.sum
  let total := if total0 = 0 then 1 else total0
  let cumulative := cumulativeFrom 0 total weights
  (List.range ps.length).filterMap fun k =>
    match cumulative.findIdx? (fun c => draws k ≤ c) with
    | some i => (ps[i]?).map fun p => { room := p.room, weight := 1 }
    | none => none

/-- `PersonTracker.update(current_time, sensor_room)`.  `moveDraws i`
supplies the pair (`random.random()`, choice index) for particle `i` of
the motion-model branch; `resDraws k` supplies the resampling draw for
output slot `k`.  The source runs record/move, reweight and resample on
one straight-line path; the embedding cases on `sensor_room` once at
the top (duplicating the common reweight/resample tail) because only
the motion-model branch touches the graph and can raise. -/
def PersonTracker.update (tk : PersonTracker) (room_graph : RoomGraph)
    (sm : SensorModel) (current_time : ℚ) (sensor_room : Option String)
    (moveDraws : ℕ → ℚ × ℕ) (resDraws : ℕ → ℚ) :
    Except String (PersonTracker × SensorModel) :=
  match sensor_room with
  | some room =>
    let tk' := { tk with last_sensor_room := some room, last_sensor_time := current_time }
    let sm' := sm.record_trigger room current_time
    let moved := tk'.particles.map fun p => { p with room := room }
    let rw := reweight sm' tk'.last_sensor_room current_time moved
    .ok ({ tk' with particles := resample rw.1 resDraws }, rw.2)
  | none =>
    match tk.particles.enum.mapM
        (fun ip => ip.2.move room_graph tk.stay_prob (moveDraws ip.1).1 (moveDraws ip.1).2) with
    | .error e => .error e
    | .ok moved =>
      let rw := reweight sm tk.last_sensor_room current_time moved
      .ok ({ tk with particles := resample rw.1 resDraws }, rw.2)

/-! ## Phone / Person / MultiPersonTracker (advanced_tracker.py)

Only the core state updates are embedded; the debug visualization
(`_maybe_visualize`, `_visualize` and the `_event_history` bookkeeping)
writes image files and mutates no tracker state, so it is omitted.
Python person ids are either strings or `None`, modelled as
`Option String`; the `people` dict is an insertion-ordered association
list. -/

structure Person where
  id : Option String
  tracker : PersonTracker
  phones : List String

structure MultiPersonTracker where
  room_graph : RoomGraph
  sensor_model : SensorModel
  stay_prob : ℚ
  people : List (Option String × Person)

/-- Dict write `self.people[person_id] = person`: replace in place when
the key exists, append otherwise. -/
def upsertPerson : List (Option String × Person) → Option String → Person →
    List (Option String × Person)
  | [], k, v => [(k, v)]
  | (a, b) :: rest, k, v =>
    if a = k then (k, v) :: rest else (a, b) :: upsertPerson rest k v

/-- `PersonTracker.__init__` + `_init_particles(n)`: `n` particles each
placed by `random.choice(rooms)` (an error on an empty node list, as
`random.choice` raises on an empty sequence). -/
def newPersonTracker (room_graph : RoomGraph) (stay_prob : ℚ) (n : ℕ)
    (initDraws : ℕ → ℕ) : Except String PersonTracker :=
  let rooms := room_graph.nodes
  if rooms.length = 0 then .error "random.choice on empty sequence"
  else
    .ok { stay_prob := stay_prob
          particles :=
            (List.range n).map fun i =>
              { room := rooms.getD (initDraws i % rooms.length) "", weight := 1 }
          last_sensor_room := none
          last_sensor_time := 0 }

/-- `MultiPersonTracker.process_event(person_id, room_id, timestamp)`:
create the person on first reference (a `PersonTracker` with the
default 100 particles), then run `tracker.update(now, sensor_room=room_id)`.
The snapping branch of `update` consumes no motion draws, so a constant
dummy stream is passed for them. -/
def MultiPersonTracker.process_event (mt : MultiPersonTracker)
    (person_id : Option String) (room_id : String) (now : ℚ)
    (initDraws : ℕ → ℕ) (resDraws : ℕ → ℚ) :
    Except String MultiPersonTracker := do
  let person ←
    match mt.people.lookup person_id with
    | some p => pure p
    | none => do
      let tracker ← newPersonTracker mt.room_graph mt.stay_prob 100 initDraws
      pure { id := person_id, tracker := tracker, phones := [] }
  let res ← person.tracker.update mt.room_graph mt.sensor_model now (some room_id)
      (fun _ => (0, 0)) resDraws
  pure { mt with
         sensor_model := res.2
         people := upsertPerson mt.people person_id { person with tracker := res.1 } }

/-- The per-person loop of `MultiPersonTracker.step` (no `skip_ids`):
each tracker updates with no sensor room, threading the shared sensor
model.  `moveDraws`/`resDraws` are indexed by the person's position in
the dict. -/
def stepPeople (room_graph : RoomGraph) (now : ℚ)
    (moveDraws : ℕ → ℕ → ℚ × ℕ) (resDraws : ℕ → ℕ → ℚ) :
    SensorModel → ℕ → List (Option String × Person) →
    Except String (List (Option String × Person) × SensorModel)
  | sm, _, [] => .ok ([], sm)
  | sm, i, (k, person) :: rest => do
    let res ← person.tracker.update room_graph sm now none (moveDraws i) (resDraws i)
    let tail ← stepPeople room_graph now moveDraws resDraws res.2 (i + 1) rest
    pure ((k, { person with tracker := res.1 }) :: tail.1, tail.2)

/-- `MultiPersonTracker.step(timestamp)`. -/
def MultiPersonTracker.step (mt : MultiPersonTracker) (now : ℚ)
    (moveDraws : ℕ → ℕ → ℚ × ℕ) (resDraws : ℕ → ℕ → ℚ) :
    Except String MultiPersonTracker := do
  let res ← stepPeople mt.room_graph now moveDraws resDraws mt.sensor_model 0 mt.people
  pure { mt with people := res.1, sensor_model := res.2 }

/-- `MultiPersonTracker.estimate_locations()`. -/
def MultiPersonTracker.estimate_locations (mt : MultiPersonTracker) :
    List (Option String × String) :=
  mt.people.map fun kp => (kp.1, kp.2.tracker.estimate)

/-! ## Event / Track (tracker.py)

Python's `time.time()` is passed in explicitly as `now`; all the
`time.time()` calls inside a single method invocation are modelled as
returning the same `now` (they differ only by call overhead in the
source). -/

structure Event where
  area : String
  first_presence_time : ℚ
  last_rising_edge_time : ℚ
  last_falling_edge_time : Option ℚ
deriving DecidableEq

/-- `Event.__init__(area, inpulse)` at time `now`. -/
def Event.init (area : String) (now : ℚ) (inpulse : Bool) : Event :=
  { area := area
    first_presence_time := now
    last_rising_edge_time := now
    last_falling_edge_time := if inpulse then none else some now }

/-- `Event.get_duration`. -/
def Event.get_duration (e : Event) : ℚ :=
  match e.last_falling_edge_time with
  | some f => f - e.first_presence_time
  | none =>
    if e.last_rising_edge_time ≠ e.first_presence_time then
      e.last_rising_edge_time - e.first_presence_time
    else 0

/-- `Event.get_time_since_last_trigger` at time `now`. -/
def Event.get_time_since_last_trigger (e : Event) (now : ℚ) : ℚ :=
  match e.last_falling_edge_time with
  | some f => now - f
  | none => now - e.last_rising_edge_time

/-- `Event.impulse()` at time `now`. -/
def Event.impulse (e : Event) (now : ℚ) : Event :=
  { e with last_rising_edge_time := now }

/-- `Event.end(end_timestamp)` with an explicit timestamp (every call
inside `Track` supplies one, or uses `absence()` = the current time).
Named `endEvent` because `end` is reserved in Lean. -/
def Event.endEvent (e : Event) (t : ℚ) : Event :=
  { e with last_falling_edge_time := some t }

structure Track where
  event_list : List Event
  max_length : ℕ
  last_event_time : ℚ
  first_event_time : ℚ
deriving DecidableEq

/-- `Track.__init__(max_length=5)` at time `now`. -/
def Track.init (now : ℚ) : Track :=
  { event_list := [], max_length := 5, last_event_time := now, first_event_time := now }

def Track.get_head (t : Track) : Option Event :=
  t.event_list.head?

def Track.get_area (t : Track) : Option String :=
  t.get_head.map Event.area

/-- `Track.get_previous_event(offset=1)`. -/
def Track.get_previous_event (t : Track) (offset : ℕ) : Option Event :=
  t.event_list[offset]?

/-- `Track.add_event(area)` (with the default `impulse=True`) at `now`. -/
def Track.add_event (t : Track) (area : String) (now : ℚ) : Track :=
  let t := { t with last_event_time := now }
  match t.event_list with
  | [] => { t with event_list := [Event.init area now true] }
  | h :: rest =>
    if h.area = area then { t with event_list := h.impulse now :: rest }
    else { t with event_list := Event.init area now true :: h.endEvent now :: rest }

/-- The `if self.event_list[0].get_duration() == 0: .end(t)` step of the
prepend branch of `merge_tracks`, acting on the current head. -/
def endHeadIfZero (l : List Event) (t : ℚ) : List Event :=
  match l with
  | [] => []
  | e :: es => if e.get_duration = 0 then e.endEvent t :: es else e :: es

/-- The prepend branch of `merge_tracks`: for each event of the track
to merge (newest first), maybe-close the current head and insert the
event at the front. -/
def prependFold (self_events : List Event) : List Event → List Event
  | [] => self_events
  | e :: rest => prependFold (e :: endHeadIfZero self_events e.first_presence_time) rest

/-- `new_event_list[0].end(t)` of the interleaving branch: close the
first element of the accumulating list. -/
def setHeadEnd (l : List Event) (t : ℚ) : List Event :=
  match l with
  | [] => []
  | e :: es => e.endEvent t :: es

/-- The inner `while` of `merge_tracks`: while the merge list's head
fired more recently than the current track's head, close
`new_event_list[0]` at the merge head's first-presence time and move
the merge head to the end of `new_event_list`. -/
def mergeInner (now : ℚ) (curHead : Event) :
    List Event → List Event → List Event × List Event
  | newList, [] => (newList, [])
  | newList, t :: rest =>
    if t.get_time_since_last_trigger now < curHead.get_time_since_last_trigger now then
      mergeInner now curHead (setHeadEnd newList t.first_presence_time ++ [t]) rest
    else (newList, t :: rest)

/-- The outer `while` of `merge_tracks` plus the trailing drain of the
merge list. -/
def mergeOuter (now : ℚ) :
    List Event → List Event → List Event → List Event
  | newList, [], tmList => newList ++ tmList
  | newList, c :: cs, tmList =>
    let step := mergeInner now c newList tmList
    mergeOuter now (step.1 ++ [c]) cs step.2

/-- `Track.merge_tracks(track_to_merge)` at time `now`.  When the whole
current track predates the track to merge, the prepend branch runs and
also advances `last_event_time`; otherwise the two event lists are
interleaved by time-since-last-trigger.  The source indexes both heads
unconditionally in the interleaving branch (raising on an empty track);
the fallback arm returning `self` is never exercised under the
non-empty-track invariant assumed by every theorem below. -/
def Track.merge_tracks (self : Track) (track_to_merge : Track) (now : ℚ) : Track :=
  if self.last_event_time < track_to_merge.first_event_time then
    { self with
      event_list := prependFold self.event_list track_to_merge.event_list
      last_event_time := track_to_merge.last_event_time }
  else
    match track_to_merge.event_list, self.event_list with
    | t :: trest, c :: crest =>
      if t.get_time_since_last_trigger now < c.get_time_since_last_trigger now then
        { self with event_list := mergeOuter now [t] (c :: crest) trest }
      else
        { self with event_list := mergeOuter now [c] crest (t :: trest) }
    | _, _ => self

/-- `Track._trim()`. -/
def Track.trim (t : Track) : Track :=
  if t.event_list.length > t.max_length then
    { t with event_list := t.event_list.take t.max_length }
  else t

/-! ## GraphManager shortest paths (tracker.py, class GraphManager)

`GraphManager.get_distance` calls `networkx.shortest_path_length` and
`try_associate_track` calls `networkx.shortest_path`; both raise on a
node absent from the graph, and raise/return-no-path on disconnected
nodes.  They are modelled by a breadth-first search over the adjacency
lists.  Queue entries store the path in reverse (current node first);
nodes are marked visited when enqueued, so each node is enqueued at
most once and `nodes.length + 1` fuel suffices. -/

def bfsPaths (g : RoomGraph) (target : String) :
    ℕ → List (List String) → List String → Option (List String)
  | 0, _, _ => none
  | _ + 1, [], _ => none
  | fuel + 1, p :: queue, visited =>
    match p with
    | [] => none
    | cur :: _ =>
      if cur = target then some p.reverse
      else
        let ns := (g.neighborsD cur).filter (fun n => ¬ visited.contains n)
        bfsPaths g target fuel (queue ++ ns.map (fun n => n :: p)) (visited ++ ns)

/-- `networkx.shortest_path(graph, src, tgt)`: `.error` models the
uncaught `NodeNotFound`, `.ok none` models `NetworkXNoPath` (which
`try_associate_track` catches), `.ok (some path)` a shortest path.  The
concrete graphs used by the theorems below have unique shortest paths,
so the BFS tie-breaking is immaterial there. -/
def RoomGraph.shortest_path (g : RoomGraph) (src tgt : String) :
    Except String (Option (List String)) :=
  if src ∈ g.nodes ∧ tgt ∈ g.nodes then
    .ok (bfsPaths g tgt (g.nodes.length + 1) [[src]] [src])
  else .error "node not in graph"

/-- `GraphManager.get_distance` = `networkx.shortest_path_length`:
raises on an absent node and on an unreachable target. -/
def RoomGraph.get_distance (g : RoomGraph) (area_1 area_2 : String) :
    Except String ℕ :=
  match g.shortest_path area_1 area_2 with
  | .error e => .error e
  | .ok none => .error "no path between nodes"
  | .ok (some p) => .ok (p.length - 1)

/-! ## TrackManager (tracker.py) -/

/-- One entry of the `metrics` list of `try_associate_track`:
`(track, base_score, alignment, speed_diff)`.  The track itself is
identified by its position `idx` in `self.tracks` (modelling Python
object identity); `speed_diff = none` models `float("inf")`. -/
structure Metric where
  idx : ℕ
  base_score : ℕ
  alignment : Bool
  speed_diff : Option ℚ
deriving DecidableEq

/-- The float comparison `m[3] < best[3]` with `none` as `inf`
(`inf < inf` is false, `x < inf` is true for finite `x`,
`inf < x` is false). -/
def ltDiff : Option ℚ → Option ℚ → Bool
  | some a, some b => a < b
  | some _, none => true
  | none, _ => false

/-- The per-track body of the `metrics` loop of `try_associate_track`:
base score, directional alignment and speed difference for one
candidate track (`area`/`event_time` describe the new event). -/
def computeMetric (g : RoomGraph) (area : String) (event_time : ℚ) (track : Track) :
    Except String (ℕ × Bool × Option ℚ) := do
  match track.event_list with
  | [] => .error "track has no head"
  | hd :: rest => do
    let last_area := hd.area
    let base_score ← g.get_distance last_area area
    let pa ←
      match rest.head? with
      | none => pure ((none : Option ℚ), false)
      | some prev_ev => do
        let dt := hd.first_presence_time - prev_ev.first_presence_time
        let track_velocity ←
          if dt > 0 then do
            let dist ← g.get_distance prev_ev.area last_area
            pure (some ((dist : ℚ) / dt))
          else pure (none : Option ℚ)
        let alignment ←
          match ← g.shortest_path prev_ev.area area with
          | some path => pure (decide (path.length > 1) && decide (path[1]? = some last_area))
          | none => pure false
        pure (track_velocity, alignment)
    let dt_new := event_time - hd.first_presence_time
    let new_velocity : Option ℚ := if dt_new > 0 then some ((base_score : ℚ) / dt_new) else none
    let speed_diff : Option ℚ :=
      match new_velocity, pa.1 with
      | some a, some b => some |a - b|
      | _, _ => none
    pure (base_score, pa.2, speed_diff)

/-- The whole `metrics` loop, tagging each entry with its track's
position. -/
def computeMetrics (g : RoomGraph) (area : String) (event_time : ℚ) :
    ℕ → List Track → Except String (List Metric)
  | _, [] => .ok []
  | i, t :: ts => do
    let m ← computeMetric g area event_time t
    let rest ← computeMetrics g area event_time (i + 1) ts
    pure (⟨i, m.1, m.2.1, m.2.2⟩ :: rest)

/-- The `for m in candidates: if m[2]: if best is None or m[3] < best[3]`
loop: the running best is replaced only by an aligned candidate with a
strictly smaller speed difference. -/
def chooseBestAligned (best : Option Metric) : List Metric → Option Metric
  | [] => best
  | m :: ms =>
    if m.alignment && (match best with
                       | none => true
                       | some b => ltDiff m.speed_diff b.speed_diff) then
      chooseBestAligned (some m) ms
    else chooseBestAligned best ms

/-- Python `min(candidates, key=lambda x: x[1])`: the first candidate
attaining the minimal base score. -/
def minBase (cur : Metric) : List Metric → Metric
  | [] => cur
  | m :: ms => minBase (if m.base_score < cur.base_score then m else cur) ms

/-- The candidate selection of `try_associate_track`: the aligned loop,
then the min-base-score fallback when it chose nothing and candidates
exist. -/
def chooseBest (candidates : List Metric) : Option Metric :=
  match chooseBestAligned none candidates with
  | some b => some b
  | none =>
    match candidates with
    | [] => none
    | c :: cs => some (minBase c cs)

structure TrackManager where
  tracks : List Track
  max_track_length : ℕ
  oldest_track : ℚ
  max_tracks : ℕ
  score_threshold : ℚ
  graph : RoomGraph

/-- `TrackManager.try_associate_track(new_track)` at time `now`: score
every existing track, filter by `base_score < score_threshold`, select
via `chooseBest`, and either merge the new track into the selected one
(in place in the list) or append it. -/
def TrackManager.try_associate_track (tm : TrackManager) (new_track : Track)
    (now : ℚ) : Except String TrackManager :=
  if tm.tracks.length > 0 then do
    let area ←
      match new_track.get_area with
      | some a => pure a
      | none => .error "new track has no head"
    let event_time ←
      match new_track.get_head with
      | some h => pure h.first_presence_time
      | none => .error "new track has no head"
    let metrics ← computeMetrics tm.graph area event_time 0 tm.tracks
    let candidates := metrics.filter fun m => (m.base_score : ℚ) < tm.score_threshold
    match chooseBest candidates with
    | some best =>
      match tm.tracks[best.idx]? with
      | some best_track =>
        .ok { tm with tracks := tm.tracks.set best.idx (best_track.merge_tracks new_track now) }
      | none => .error "candidate index out of range"
    | none => .ok { tm with tracks := tm.tracks ++ [new_track] }
  else .ok { tm with tracks := tm.tracks ++ [new_track] }

/-- The `for track in self.tracks` loop of `cleanup_tracks`, with
CPython list-iterator semantics: the loop index advances by one each
step over the list as currently mutated, so removing the element at the
cursor skips the element after it.  `remove` deletes the first
occurrence (`List.erase`; the source compares by object identity, which
coincides with structural equality for the distinct tracks a manager
holds), and an in-place `_trim` of a kept track rewrites its slot. -/
def cleanupIter (now oldest : ℚ) (maxLen : ℕ) (ts : List Track) (i : ℕ) :
    List Track :=
  if h : i < ts.length then
    let t := ts.get ⟨i, h⟩
    if now - t.last_event_time > oldest then
      cleanupIter now oldest maxLen (ts.erase t) (i + 1)
    else
      let t' := if t.event_list.length > maxLen then t.trim else t
      cleanupIter now oldest maxLen (ts.set i t') (i + 1)
  else ts
termination_by ts.length - i
decreasing_by
  · have hle := (List.erase_sublist (ts.get ⟨i, ‹i < ts.length›⟩) ts).length_le
    omega
  · simp only [List.length_set]
    omega

/-- `TrackManager.cleanup_tracks()` at time `now`: the removal/trim
loop, then keeping only the last `max_tracks` tracks
(`self.tracks[-self.max_tracks:]`). -/
def TrackManager.cleanup_tracks (tm : TrackManager) (now : ℚ) : TrackManager :=
  let ts := cleanupIter now tm.oldest_track tm.max_track_length tm.tracks 0
  if ts.length > tm.max_tracks then
    { tm with tracks := ts.drop (ts.length - tm.max_tracks) }
  else { tm with tracks := ts }

/-- `TrackManager.add_event(area)` at time `now`: rooms absent from the
graph are ignored (`is_area_in_graph` guard); otherwise a fresh
single-event track is built, associated, and housekeeping runs.
`output_stats` only logs and draws, and is omitted. -/
def TrackManager.add_event (tm : TrackManager) (area : String) (now : ℚ) :
    Except String TrackManager :=
  if area ∈ tm.graph.nodes then do
    let new_track := (Track.init now).add_event area now
    let tm' ← tm.try_associate_track new_track now
    .ok (tm'.cleanup_tracks now)
  else .ok tm

/-- `TrackManager.get_tracks()`. -/
def TrackManager.get_tracks (tm : TrackManager) : List (List Event) :=
  tm.tracks.map Track.event_list

/-! ## Concrete fixtures used by witnesses and counterexamples -/

/-- The path graph `r0 - r1 - r2 - r3 - r4 - r5` (all shortest paths in
it are unique). -/
def pathG : RoomGraph :=
  ⟨[("r0", ["r1"]), ("r1", ["r0", "r2"]), ("r2", ["r1", "r3"]),
    ("r3", ["r2", "r4"]), ("r4", ["r3", "r5"]), ("r5", ["r4"])]⟩

/-- The two-room graph `a - b`. -/
def gAB : RoomGraph := ⟨[("a", ["b"]), ("b", ["a"])]⟩

/-! ## SensorModel helper lemmas -/

theorem record_trigger_motion (m : SensorModel) (room : String) (now : ℚ) :
    (m.record_trigger room now).motion_state room = true := by
  unfold SensorModel.record_trigger
  split
  · next h => exact h.1
  · simp [strUpdate]

theorem record_trigger_presence (m : SensorModel) (room : String) (now : ℚ) :
    (m.record_trigger room now).presence = m.presence := by
  unfold SensorModel.record_trigger
  split <;> rfl

theorem record_trigger_cooldown (m : SensorModel) (room : String) (now : ℚ) :
    (m.record_trigger room now).cooldown = m.cooldown := by
  unfold SensorModel.record_trigger
  split <;> rfl

theorem record_trigger_ignored (m : SensorModel) (room : String) (now : ℚ)
    (h1 : m.motion_state room = true) (h2 : now - m.last_fire room < m.cooldown) :
    m.record_trigger room now = m := by
  unfold SensorModel.record_trigger
  rw [if_pos ⟨h1, h2⟩]

theorem record_trigger_window (m : SensorModel) (room : String) (now : ℚ)
    (h : 0 < m.cooldown) :
    now - (m.record_trigger room now).last_fire room <
      (m.record_trigger room now).cooldown := by
  unfold SensorModel.record_trigger
  split
  · next hc => exact lt_of_lt_of_le hc.2 (le_refl _)
  · simpa [strUpdate] using h

/-- While a room's explicit presence is unset and its motion state is
active inside the cooldown window, the likelihood is `1.0` and the
model is left unchanged. -/
theorem likelihood_active_one (m : SensorModel) (room : String) (now : ℚ)
    (hpres : m.presence room ≠ some false)
    (hmot : m.motion_state room = true)
    (hwin : now - m.last_fire room < m.cooldown) :
    m.likelihood_still_present room now = (1, m) := by
  unfold SensorModel.likelihood_still_present
  match hp : m.presence room with
  | some true => rfl
  | some false => exact absurd hp hpres
  | none => simp [hmot, hwin]

/-! ## C10 -/

/-- C10: when a `PersonTracker`'s particle set is empty, `estimate()`
returns the string `"unknown"` and `distribution()` returns the empty
mapping; neither read accessor can fail. -/
theorem c10_empty_tracker_accessors (tk : PersonTracker)
    (h : tk.particles = []) :
    tk.estimate = "unknown" ∧ tk.distribution = [] := by
  constructor
  · unfold PersonTracker.estimate countsOf
    rw [h]
    rfl
  · unfold PersonTracker.distribution
    rw [h]
    rfl

theorem c10_empty_tracker_accessors_witness :
    PersonTracker.estimate ⟨1/2, [], none, 0⟩ = "unknown" ∧
    PersonTracker.distribution ⟨1/2, [], none, 0⟩ = [] :=
  c10_empty_tracker_accessors ⟨1/2, [], none, 0⟩ rfl

/-! ## C1 -/

/-- A sensor model whose explicit presence flag is `False` for every
room, so every particle weight collapses to zero on reweighting. -/
def smAllFalse : SensorModel :=
  { SensorModel.default with presence := fun _ => some false }

/-- A two-particle tracker sitting in room `a` of `gAB`. -/
def tkTwoA : PersonTracker :=
  { stay_prob := 1/2, particles := [⟨"a", 1⟩, ⟨"a", 1⟩],
    last_sensor_room := none, last_sensor_time := 0 }

/-- C1 (code bug): with every particle weight reweighted to zero (all
rooms carry an explicit `presence = False`), `update` avoids the
division by zero by setting the total to `1.0`, but the cumulative
table is then all zeros and the inverse-CDF loop selects nothing for
any draw above zero: the tracker comes back with an empty particle
list, not its full, unchanged particle count. -/
theorem c1_zero_weight_update_empties_particles :
    tkTwoA.particles.length = 2 ∧
    (tkTwoA.update gAB smAllFalse 0 none (fun _ => (0, 0)) (fun _ => 1/2)).map
        (fun s => s.1.particles.length) = .ok 0 := by
  constructor
  · rfl
  · with_unfolding_all rfl

/-! ## C3 -/

/-- C3 (amended): for a room with no explicit presence flag and a fresh
(inactive) motion state, a trigger at `t0` makes the likelihood exactly
`1.0` for every query inside the cooldown window and exactly the floor
probability from the end of the window on — a step profile, not a
linear decay. -/
theorem c3_likelihood_step_profile (m : SensorModel) (room : String) (t0 t : ℚ)
    (hp : m.presence room = none) (hm : m.motion_state room = false) :
    (t - t0 < m.cooldown →
      ((m.record_trigger room t0).likelihood_still_present room t).1 = 1) ∧
    (m.cooldown ≤ t - t0 →
      ((m.record_trigger room t0).likelihood_still_present room t).1 = m.floor_prob) := by
  have hrec : m.record_trigger room t0 =
      { m with
        motion_state := strUpdate m.motion_state room true
        last_fire := strUpdate m.last_fire room t0 } := by
    unfold SensorModel.record_trigger
    simp [hm]
  constructor
  · intro hwin
    rw [hrec]
    unfold SensorModel.likelihood_still_present
    simp [hp, strUpdate, hwin]
  · intro hlate
    rw [hrec]
    unfold SensorModel.likelihood_still_present
    simp only [hp, strUpdate, if_pos rfl]
    have h1 : ¬ (t - t0 < m.cooldown) := not_lt.mpr hlate
    simp [h1, hlate]

theorem c3_likelihood_step_profile_witness :
    SensorModel.default.presence "a" = none ∧
    SensorModel.default.motion_state "a" = false ∧
    ((SensorModel.default.record_trigger "a" 0).likelihood_still_present "a" 210).1 = 1 ∧
    ((SensorModel.default.record_trigger "a" 0).likelihood_still_present "a" 430).1 =
      SensorModel.default.floor_prob :=
  ⟨rfl, rfl,
   (c3_likelihood_step_profile SensorModel.default "a" 0 210 rfl rfl).1
     (by with_unfolding_all decide),
   (c3_likelihood_step_profile SensorModel.default "a" 0 430 rfl rfl).2
     (by with_unfolding_all decide)⟩

/-- C3 counterexample: halfway through the default cooldown window
(trigger at `0`, query at `210`, cooldown `420`, floor `0.05`) the code
returns exactly `1.0` — not a value strictly between the floor and
`1.0`, and not the linear interpolation `0.525`. -/
theorem c3_no_linear_decay_counterexample :
    ((SensorModel.default.record_trigger "a" 0).likelihood_still_present "a" 210).1 = 1 ∧
    ¬ ((SensorModel.default.record_trigger "a" 0).likelihood_still_present "a" 210).1 < 1 ∧
    ((SensorModel.default.record_trigger "a" 0).likelihood_still_present "a" 210).1 ≠ 21/40 := by
  have h1 : ((SensorModel.default.record_trigger "a" 0).likelihood_still_present "a" 210).1 = 1 := by
    with_unfolding_all rfl
  refine ⟨h1, ?_, ?_⟩
  · rw [h1]
    exact lt_irrefl 1
  · rw [h1]
    with_unfolding_all decide

/-! ## C4 -/

/-- C4: once a room is in its active cooldown window, every re-trigger
issued inside that window is ignored: the sensor-model state after any
such sequence equals the state after the first trigger alone, and so
the likelihood at any query time never exceeds (indeed equals) the
value it would have had after the first trigger alone. -/
theorem c4_retrigger_does_not_extend (m : SensorModel) (room : String)
    (t0 : ℚ) (ts : List ℚ) (q : ℚ)
    (hts : ∀ t ∈ ts, t - (m.record_trigger room t0).last_fire room < m.cooldown) :
    ts.foldl (fun s t => s.record_trigger room t) (m.record_trigger room t0)
      = m.record_trigger room t0 ∧
    ((ts.foldl (fun s t => s.record_trigger room t)
        (m.record_trigger room t0)).likelihood_still_present room q).1 ≤
      ((m.record_trigger room t0).likelihood_still_present room q).1 := by
  have hfold : ts.foldl (fun s t => s.record_trigger room t) (m.record_trigger room t0)
      = m.record_trigger room t0 := by
    induction ts with
    | nil => rfl
    | cons t rest ih =>
      have hignored : (m.record_trigger room t0).record_trigger room t
          = m.record_trigger room t0 :=
        record_trigger_ignored _ room t (record_trigger_motion m room t0)
          (by rw [record_trigger_cooldown]; exact hts t (List.mem_cons_self t rest))
      simp only [List.foldl_cons, hignored]
      exact ih (fun t' ht' => hts t' (List.mem_cons_of_mem t ht'))
  exact ⟨hfold, by rw [hfold]⟩

theorem c4_retrigger_does_not_extend_witness :
    (∀ t ∈ [(5 : ℚ), 10, 300],
      t - ((SensorModel.default.record_trigger "a" 0).last_fire "a") <
        SensorModel.default.cooldown) ∧
    [(5 : ℚ), 10, 300].foldl (fun s t => s.record_trigger "a" t)
        (SensorModel.default.record_trigger "a" 0)
      = SensorModel.default.record_trigger "a" 0 :=
  ⟨by with_unfolding_all decide,
   (c4_retrigger_does_not_extend SensorModel.default "a" 0 [5, 10, 300] 100
      (by with_unfolding_all decide)).1⟩

/-! ## Resampling helper lemmas -/

theorem cumulativeFrom_length (total : ℚ) :
    ∀ (ws : List ℚ) (acc : ℚ), (cumulativeFrom acc total ws).length = ws.length := by
  intro ws
  induction ws with
  | nil => intro acc; rfl
  | cons w rest ih =>
    intro acc
    simp [cumulativeFrom, ih]

theorem cumulativeFrom_getLast? (total : ℚ) :
    ∀ (ws : List ℚ) (acc : ℚ), ws ≠ [] →
      (cumulativeFrom acc total ws).getLast? = some (acc + ws.sum / total) := by
  intro ws
  induction ws with
  | nil => intro acc h; exact absurd rfl h
  | cons w rest ih =>
    intro acc _
    match rest, ih with
    | [], _ => simp [cumulativeFrom]
    | w' :: rest', ih =>
      have hne : w' :: rest' ≠ [] := by simp
      calc (cumulativeFrom acc total (w :: w' :: rest')).getLast?
          = (cumulativeFrom (acc + w / total) total (w' :: rest')).getLast? := by
            simp only [cumulativeFrom]
            rw [List.getLast?_cons_cons]
        _ = some (acc + w / total + (w' :: rest').sum / total) := ih _ hne
        _ = some (acc + (w :: w' :: rest').sum / total) := by
            simp only [List.sum_cons, add_assoc, div_add_div_same]

theorem findIdx?_some_of_exists {α : Type} (p : α → Bool) :
    ∀ l : List α, (∃ x ∈ l, p x = true) →
      ∃ i, l.findIdx? p = some i ∧ i < l.length := by
  intro l
  induction l with
  | nil => rintro ⟨x, hx, _⟩; exact absurd hx (List.not_mem_nil x)
  | cons a as ih =>
    rintro ⟨x, hx, hpx⟩
    by_cases hpa : p a = true
    · exact ⟨0, by simp [List.findIdx?_cons, hpa], Nat.succ_pos _⟩
    · have hxas : x ∈ as := by
        rcases List.mem_cons.mp hx with rfl | h
        · exact absurd hpx hpa
        · exact h
      obtain ⟨i, hi, hlt⟩ := ih ⟨x, hxas, hpx⟩
      refine ⟨i + 1, ?_, by simpa using Nat.succ_lt_succ hlt⟩
      simp [List.findIdx?_cons, hpa, hi]

theorem filterMap_eq_replicate {α β : Type} (l : List α) (f : α → Option β) (v : β)
    (h : ∀ x ∈ l, f x = some v) :
    l.filterMap f = List.replicate l.length v := by
  induction l with
  | nil => rfl
  | cons a as ih =>
    rw [List.filterMap_cons, h a (List.mem_cons_self a as)]
    simp only [List.length_cons, List.replicate_succ]
    rw [ih (fun x hx => h x (List.mem_cons_of_mem a hx))]

/-- Resampling a non-degenerate uniform particle set: when every
particle sits in `room` with the same positive weight and every draw is
in `[0,1)`, the inverse-CDF lookup succeeds for every output slot and
the tracker gets back `ps.length` fresh particles in `room`. -/
theorem resample_all_same (ps : List Particle) (draws : ℕ → ℚ) (room : String)
    (w : ℚ) (hroom : ∀ p ∈ ps, p.room = room) (hw : ∀ p ∈ ps, p.weight = w)
    (hpos : 0 < w) (hd : ∀ k, 0 ≤ draws k ∧ draws k < 1) :
    resample ps draws = List.replicate ps.length ⟨room, 1⟩ := by
  by_cases h0 : ps = []
  · rw [h0]
    rfl
  · have hlen : 0 < ps.length := List.length_pos.mpr h0
    have hweights : ps.map Particle.weight = List.replicate ps.length w := by
      refine List.eq_replicate_iff.mpr ⟨by simp, ?_⟩
      intro b hb
      obtain ⟨p, hp, rfl⟩ := List.mem_map.mp hb
      exact hw p hp
    have hsum : (ps.map Particle.weight).sum = (ps.length : ℚ) * w := by
      rw [hweights, List.sum_replicate, nsmul_eq_mul]
    have htot_ne : (ps.map Particle.weight).sum ≠ 0 := by
      rw [hsum]
      exact mul_ne_zero (Nat.cast_ne_zero.mpr (by omega)) (ne_of_gt hpos)
    unfold resample
    simp only [if_neg htot_ne]
    set cumulative := cumulativeFrom 0 (ps.map Particle.weight).sum (ps.map Particle.weight)
      with hcum
    have hlast : cumulative.getLast? = some 1 := by
      rw [hcum, cumulativeFrom_getLast? _ _ _ (by simpa using h0), zero_add,
        div_self htot_ne]
    have hone_mem : (1 : ℚ) ∈ cumulative := by
      cases hc : cumulative with
      | nil => rw [hc] at hlast; exact absurd hlast (by simp)
      | cons c cs =>
        rw [hc] at hlast
        have := List.getLast?_eq_getLast (c :: cs) (by simp)
        rw [this] at hlast
        have hmem := List.getLast_mem (l := c :: cs) (by simp)
        rw [Option.some_inj.mp hlast] at hmem
        exact hmem
    have hclen : cumulative.length = ps.length := by
      rw [hcum, cumulativeFrom_length]
      simp
    rw [filterMap_eq_replicate _ _ (⟨room, 1⟩ : Particle) ?_]
    · simp
    · intro k _
      obtain ⟨i, hi, hilt⟩ := findIdx?_some_of_exists (fun c => draws k ≤ c) cumulative
        ⟨1, hone_mem, decide_eq_true (le_of_lt (hd k).2)⟩
      rw [hi]
      have hips : i < ps.length := hclen ▸ hilt
      simp only [List.getElem?_eq_getElem hips, Option.map_some']
      have : ps[i].room = room := hroom _ (ps.getElem_mem hips)
      rw [this]

/-! ## Reweighting helper lemmas -/

/-- Reweighting a particle list that sits entirely in `room`, when the
sensor likelihood of `room` is `w0` and does not mutate the model: each
particle's weight becomes `w0` doubled by the last-sensor-room boost
(when `room` is truthy). -/
theorem reweight_all_same (sm : SensorModel) (room : String) (now : ℚ) (w0 : ℚ)
    (hl : sm.likelihood_still_present room now = (w0, sm)) :
    ∀ ps : List Particle, (∀ p ∈ ps, p.room = room) →
      reweight sm (some room) now ps =
        (ps.map fun p => { p with weight := if room ≠ "" then w0 * 2 else w0 }, sm) := by
  intro ps
  induction ps with
  | nil => intro _; rfl
  | cons p rest ih =>
    intro hmem
    have hp : p.room = room := hmem p (List.mem_cons_self p rest)
    have hrest := ih (fun q hq => hmem q (List.mem_cons_of_mem p hq))
    simp only [reweight, hp, hl, hrest, List.map_cons]
    by_cases hr : room = ""
    · simp [hr]
    · simp [hr]

/-! ## Estimate helper lemmas -/

theorem countsOf_replicate_aux (room : String) :
    ∀ (n k : ℕ),
      List.foldl (fun acc p => bumpCount acc p.room) [(room, k)]
        (List.replicate n (⟨room, 1⟩ : Particle)) = [(room, k + n)] := by
  intro n
  induction n with
  | zero => intro k; rfl
  | succ m ih =>
    intro k
    rw [List.replicate_succ, List.foldl_cons]
    have hb : bumpCount [(room, k)] (⟨room, (1 : ℚ)⟩ : Particle).room = [(room, k + 1)] := by
      simp [bumpCount]
    rw [hb, ih (k + 1)]
    have harith : k + 1 + m = k + (m + 1) := by omega
    rw [harith]

theorem countsOf_replicate (room : String) (n : ℕ) (hn : n ≠ 0) :
    countsOf (List.replicate n (⟨room, 1⟩ : Particle)) = [(room, n)] := by
  match n, hn with
  | m + 1, _ =>
    unfold countsOf
    rw [List.replicate_succ, List.foldl_cons]
    have hb : bumpCount [] (⟨room, (1 : ℚ)⟩ : Particle).room = [(room, 1)] := rfl
    rw [hb, countsOf_replicate_aux room m 1]
    have harith : 1 + m = m + 1 := by omega
    rw [harith]

theorem estimate_replicate (tk : PersonTracker) (room : String) (n : ℕ)
    (hn : n ≠ 0) (hps : tk.particles = List.replicate n ⟨room, 1⟩) :
    tk.estimate = room := by
  unfold PersonTracker.estimate
  rw [hps, countsOf_replicate room n hn]
  rfl

/-! ## The snapping branch of update -/

/-- `update(now, sensor_room)` with a sighted room whose explicit
presence is not `False` and a positive cooldown: the trigger leaves the
room in its active window, every snapped particle reweights to the same
positive weight, and resampling returns the full particle count pinned
to `sensor_room`. -/
theorem update_snap (g : RoomGraph) (sm : SensorModel) (tk : PersonTracker)
    (now : ℚ) (room : String) (moveDraws : ℕ → ℚ × ℕ) (resDraws : ℕ → ℚ)
    (hpres : sm.presence room ≠ some false)
    (hcd : 0 < sm.cooldown)
    (hd : ∀ k, 0 ≤ resDraws k ∧ resDraws k < 1) :
    tk.update g sm now (some room) moveDraws resDraws =
      .ok ({ tk with
             last_sensor_room := some room
             last_sensor_time := now
             particles := List.replicate tk.particles.length ⟨room, 1⟩ },
           sm.record_trigger room now) := by
  set sm1 := sm.record_trigger room now with hsm1
  have hlik : sm1.likelihood_still_present room now = (1, sm1) := by
    refine likelihood_active_one sm1 room now ?_ ?_ ?_
    · rw [hsm1, record_trigger_presence]
      exact hpres
    · exact record_trigger_motion sm room now
    · exact record_trigger_window sm room now hcd
  have hsnap : ∀ p ∈ tk.particles.map (fun p => { p with room := room }), p.room = room := by
    intro p hp
    obtain ⟨q, _, rfl⟩ := List.mem_map.mp hp
    rfl
  have hrw := reweight_all_same sm1 room now 1 hlik
    (tk.particles.map fun p => { p with room := room }) hsnap
  have hres := resample_all_same
    ((tk.particles.map fun p => { p with room := room }).map
      fun p => { p with weight := if room ≠ "" then (1 : ℚ) * 2 else 1 })
    resDraws room (if room ≠ "" then (1 : ℚ) * 2 else 1)
    (by
      intro p hp
      obtain ⟨q, hq, rfl⟩ := List.mem_map.mp hp
      exact hsnap q hq)
    (by
      intro p hp
      obtain ⟨q, _, rfl⟩ := List.mem_map.mp hp
      rfl)
    (by split <;> norm_num)
    hd
  unfold PersonTracker.update
  simp only [hsm1.symm, hrw, bind, Except.bind, pure, Except.pure, hres,
    List.length_map]

/-! ## C2 -/

/-- The single-particle tracker sitting in room `a`. -/
def tkOneA : PersonTracker :=
  { stay_prob := 1/2, particles := [⟨"a", 1⟩], last_sensor_room := none,
    last_sensor_time := 0 }

/-- C2 (amended): for every tracker with a non-empty particle set,
`update(now, sensor_room)` snaps every particle to `sensor_room`,
preserves the particle count, and makes `estimate()` return
`sensor_room`, for every stream of resampling draws in `[0,1)` —
provided the reweighted weights do not all collapse to zero, i.e. the
sighted room's explicit presence flag is not `False` (and the cooldown
is positive, as configured). -/
theorem c2_sighting_snaps_estimate (g : RoomGraph) (sm : SensorModel)
    (tk : PersonTracker) (now : ℚ) (room : String)
    (moveDraws : ℕ → ℚ × ℕ) (resDraws : ℕ → ℚ)
    (hne : tk.particles ≠ [])
    (hpres : sm.presence room ≠ some false)
    (hcd : 0 < sm.cooldown)
    (hd : ∀ k, 0 ≤ resDraws k ∧ resDraws k < 1) :
    ∃ tk' sm', tk.update g sm now (some room) moveDraws resDraws = .ok (tk', sm') ∧
      tk'.particles.length = tk.particles.length ∧
      (∀ p ∈ tk'.particles, p.room = room) ∧
      tk'.estimate = room := by
  refine ⟨_, _, update_snap g sm tk now room moveDraws resDraws hpres hcd hd, ?_, ?_, ?_⟩
  · simp
  · intro p hp
    have := List.eq_of_mem_replicate hp
    rw [this]
  · exact estimate_replicate _ room tk.particles.length
      (by have := List.length_pos.mpr hne; omega) rfl

theorem c2_sighting_snaps_estimate_witness :
    tkOneA.particles ≠ [] ∧
    SensorModel.default.presence "b" ≠ some false ∧
    0 < SensorModel.default.cooldown ∧
    (∃ tk' sm',
      tkOneA.update gAB SensorModel.default 0 (some "b") (fun _ => (0, 0))
          (fun _ => 1/2) = .ok (tk', sm') ∧
      tk'.particles.length = tkOneA.particles.length ∧
      (∀ p ∈ tk'.particles, p.room = "b") ∧
      tk'.estimate = "b") :=
  ⟨by decide, by decide, by with_unfolding_all decide,
   c2_sighting_snaps_estimate gAB SensorModel.default tkOneA 0 "b"
     (fun _ => (0, 0)) (fun _ => 1/2) (by decide) (by decide)
     (by with_unfolding_all decide)
     (by intro k; constructor <;> norm_num)⟩

/-- The sensor model whose explicit presence flag for room `b` is
`False`. -/
def smBFalse : SensorModel :=
  { SensorModel.default with presence := fun r => if r = "b" then some false else none }

/-- C2 counterexample: with explicit presence `False` recorded for the
sighted room, every snapped particle reweights to zero, the inverse-CDF
loop selects nothing for the draw `1/2`, and `estimate()` returns
`"unknown"`, not the sighted room — so the claim does not hold for
every tracker and every draw stream. -/
theorem c2_presence_false_counterexample :
    (tkOneA.update gAB smBFalse 0 (some "b") (fun _ => (0, 0))
        (fun _ => 1/2)).map (fun s => (s.1.particles.length, s.1.estimate)) =
      .ok (0, "unknown") ∧
    "unknown" ≠ "b" :=
  ⟨by with_unfolding_all rfl, by decide⟩

/-! ## People-dict helper lemmas -/

theorem upsertPerson_of_lookup_none (v : Person) :
    ∀ (l : List (Option String × Person)) (k : Option String),
      l.lookup k = none → upsertPerson l k v = l ++ [(k, v)] := by
  intro l
  induction l with
  | nil => intro k _; rfl
  | cons kv rest ih =>
    intro k hk
    match kv with
    | (a, b) =>
      by_cases he : a = k
      · subst he
        simp [List.lookup_cons] at hk
      · have hne : (k == a) = false := beq_eq_false_iff_ne.mpr (fun h => he h.symm)
        simp only [List.lookup_cons, hne] at hk
        simp only [upsertPerson, if_neg he, List.cons_append]
        rw [ih k hk]

theorem lookup_map_estimate (k : Option String) :
    ∀ l : List (Option String × Person),
      (l.map (fun kp => (kp.1, kp.2.tracker.estimate))).lookup k =
        (l.lookup k).map (fun p => p.tracker.estimate) := by
  intro l
  induction l with
  | nil => rfl
  | cons kv rest ih =>
    obtain ⟨a, b⟩ := kv
    by_cases he : (k == a) = true
    · simp [List.map_cons, List.lookup_cons, he]
    · simp [List.map_cons, List.lookup_cons, he, ih]

theorem lookup_append_eq {α β : Type} [BEq α] (k : α) :
    ∀ l1 l2 : List (α × β),
      (l1 ++ l2).lookup k =
        (match l1.lookup k with
         | some v => some v
         | none => l2.lookup k) := by
  intro l1 l2
  induction l1 with
  | nil => rfl
  | cons kv rest ih =>
    obtain ⟨a, b⟩ := kv
    cases hab : (k == a) with
    | true => simp only [List.cons_append, List.lookup_cons, hab]
    | false =>
      simp only [List.cons_append, List.lookup_cons, hab]
      exact ih

/-- `process_event` for an id with no existing person: a fresh
100-particle tracker is created, keyed by the id as given (`None`
included), the event room is snapped into it, and the person is
appended to the people dict. -/
theorem process_event_new_person (mt : MultiPersonTracker)
    (person_id : Option String) (room : String) (now : ℚ)
    (initDraws : ℕ → ℕ) (resDraws : ℕ → ℚ)
    (hlk : mt.people.lookup person_id = none)
    (hnodes : mt.room_graph.nodes ≠ [])
    (hpres : mt.sensor_model.presence room ≠ some false)
    (hcd : 0 < mt.sensor_model.cooldown)
    (hd : ∀ k, 0 ≤ resDraws k ∧ resDraws k < 1) :
    ∃ pers : Person,
      mt.process_event person_id room now initDraws resDraws =
        .ok { mt with
              sensor_model := mt.sensor_model.record_trigger room now
              people := mt.people ++ [(person_id, pers)] } ∧
      pers.id = person_id ∧
      pers.tracker.particles = List.replicate 100 ⟨room, 1⟩ ∧
      pers.tracker.estimate = room := by
  have hlen0 : mt.room_graph.nodes.length ≠ 0 := by
    intro h
    exact hnodes (List.length_eq_zero.mp h)
  set tk0 : PersonTracker :=
    { stay_prob := mt.stay_prob
      particles :=
        (List.range 100).map fun i =>
          { room := mt.room_graph.nodes.getD (initDraws i % mt.room_graph.nodes.length) ""
            weight := 1 }
      last_sensor_room := none
      last_sensor_time := 0 } with htk0
  have hnew : newPersonTracker mt.room_graph mt.stay_prob 100 initDraws = .ok tk0 := by
    unfold newPersonTracker
    rw [if_neg hlen0]
  have hupd := update_snap mt.room_graph mt.sensor_model tk0 now room
    (fun _ => (0, 0)) resDraws hpres hcd hd
  have hn0 : tk0.particles.length = 100 := by
    rw [htk0]
    simp
  refine ⟨{ id := person_id
            tracker := { tk0 with
                         last_sensor_room := some room
                         last_sensor_time := now
                         particles := List.replicate tk0.particles.length ⟨room, 1⟩ }
            phones := [] }, ?_, rfl, by simp [hn0], ?_⟩
  · unfold MultiPersonTracker.process_event
    rw [hlk]
    simp only [hnew, bind, Except.bind, pure, Except.pure, hupd]
    rw [upsertPerson_of_lookup_none _ _ _ hlk]
  · exact estimate_replicate _ room tk0.particles.length (by omega) rfl

/-! ## C5 -/

/-- C5 (amended): an absent person id does not create an
auto-incremented `unknown_N` person; the absent id itself (`None`) is
the people-dict key.  After an anonymous event at a room (weights not
collapsed, draws in `[0,1)`), `estimate_locations()` maps the key
`None` — not `"unknown_0"` — to the sighted room, and no `"unknown_0"`
entry is created. -/
theorem c5_absent_id_uses_none_key (mt : MultiPersonTracker) (room : String)
    (now : ℚ) (initDraws : ℕ → ℕ) (resDraws : ℕ → ℚ)
    (hlk : mt.people.lookup none = none)
    (hnodes : mt.room_graph.nodes ≠ [])
    (hpres : mt.sensor_model.presence room ≠ some false)
    (hcd : 0 < mt.sensor_model.cooldown)
    (hd : ∀ k, 0 ≤ resDraws k ∧ resDraws k < 1) :
    ∃ mt' pers,
      mt.process_event none room now initDraws resDraws = .ok mt' ∧
      mt'.people = mt.people ++ [(none, pers)] ∧
      pers.tracker.estimate = room ∧
      mt'.estimate_locations.lookup none = some room ∧
      mt'.estimate_locations.lookup (some "unknown_0") =
        (mt.people.lookup (some "unknown_0")).map (fun p => p.tracker.estimate) := by
  obtain ⟨pers, hok, _, _, hest⟩ :=
    process_event_new_person mt none room now initDraws resDraws hlk hnodes hpres hcd hd
  refine ⟨_, pers, hok, rfl, hest, ?_, ?_⟩
  · show (MultiPersonTracker.estimate_locations _).lookup none = some room
    unfold MultiPersonTracker.estimate_locations
    rw [lookup_map_estimate, lookup_append_eq, hlk]
    simp [List.lookup_cons, hest]
  · show (MultiPersonTracker.estimate_locations _).lookup (some "unknown_0") = _
    unfold MultiPersonTracker.estimate_locations
    rw [lookup_map_estimate, lookup_append_eq]
    cases h : mt.people.lookup (some "unknown_0") with
    | some v => rfl
    | none => simp [List.lookup_cons]

/-- The two-room graph `hallway - kitchen` with an empty
`MultiPersonTracker` in front of it. -/
def mtHallway : MultiPersonTracker :=
  { room_graph := ⟨[("hallway", ["kitchen"]), ("kitchen", ["hallway"])]⟩
    sensor_model := SensorModel.default
    stay_prob := 1/2
    people := [] }

theorem c5_absent_id_uses_none_key_witness :
    mtHallway.people.lookup none = none ∧
    mtHallway.room_graph.nodes ≠ [] ∧
    (∃ mt' pers,
      mtHallway.process_event none "hallway" 0 (fun _ => 0) (fun _ => 1/2) = .ok mt' ∧
      mt'.people = mtHallway.people ++ [(none, pers)] ∧
      pers.tracker.estimate = "hallway" ∧
      mt'.estimate_locations.lookup none = some "hallway" ∧
      mt'.estimate_locations.lookup (some "unknown_0") =
        (mtHallway.people.lookup (some "unknown_0")).map (fun p => p.tracker.estimate)) :=
  ⟨rfl, by decide,
   c5_absent_id_uses_none_key mtHallway "hallway" 0 (fun _ => 0) (fun _ => 1/2)
     rfl (by decide) (by decide) (by with_unfolding_all decide)
     (by intro k; constructor <;> norm_num)⟩

/-- C5 counterexample: after the anonymous event at `"hallway"`,
`estimate_locations()` has no `"unknown_0"` key at all — the new entry
is keyed by the absent id `None`. -/
theorem c5_no_unknown0_counterexample :
    (mtHallway.process_event none "hallway" 0 (fun _ => 0) (fun _ => 1/2)).map
      (fun m => (m.estimate_locations.lookup (some "unknown_0"),
                 m.estimate_locations.lookup none)) =
      .ok (none, some "hallway") := by
  obtain ⟨pers, hok, _, _, hest⟩ :=
    process_event_new_person mtHallway none "hallway" 0 (fun _ => 0) (fun _ => 1/2)
      rfl (by decide) (by decide) (by with_unfolding_all decide)
      (by intro k; constructor <;> norm_num)
  rw [hok]
  have hp0 : mtHallway.people = [] := rfl
  simp only [Except.map, MultiPersonTracker.estimate_locations, hp0, List.nil_append,
    List.map_cons, List.map_nil, hest]
  rfl

/-! ## C6 -/

/-- C6 (amended, `TrackManager` side): `add_event` for a room absent
from the graph is ignored without error and leaves the manager
unchanged. -/
theorem c6_add_event_ignores_unknown_room (tm : TrackManager) (area : String)
    (now : ℚ) (h : area ∉ tm.graph.nodes) :
    tm.add_event area now = .ok tm := by
  unfold TrackManager.add_event
  rw [if_neg h]

/-- An empty track manager over the two-room graph. -/
def tmEmptyAB : TrackManager :=
  { tracks := [], max_track_length := 5, oldest_track := 30 * 60,
    max_tracks := 10, score_threshold := 5/2, graph := gAB }

theorem c6_add_event_ignores_unknown_room_witness :
    "ghost" ∉ tmEmptyAB.graph.nodes ∧
    tmEmptyAB.add_event "ghost" 0 = .ok tmEmptyAB :=
  ⟨by decide, c6_add_event_ignores_unknown_room tmEmptyAB "ghost" 0 (by decide)⟩

/-- An empty `MultiPersonTracker` over the two-room graph `a - b`. -/
def mtAB : MultiPersonTracker :=
  { room_graph := gAB, sensor_model := SensorModel.default,
    stay_prob := 1/2, people := [] }

/-- `step` propagates the `networkx` neighbour-lookup error as soon as
the first tracked person's first particle sits in a room absent from
the graph. -/
theorem step_error_first_particle (mt : MultiPersonTracker) (now : ℚ)
    (moveD : ℕ → ℕ → ℚ × ℕ) (resD : ℕ → ℕ → ℚ) (k : Option String)
    (pers : Person) (rest : List (Option String × Person))
    (p : Particle) (ps : List Particle)
    (hpeople : mt.people = (k, pers) :: rest)
    (hparts : pers.tracker.particles = p :: ps)
    (hbad : p.room ∉ mt.room_graph.nodes) :
    mt.step now moveD resD = .error "node not in graph" := by
  have hmove : p.move mt.room_graph pers.tracker.stay_prob
      ((moveD 0) 0).1 ((moveD 0) 0).2 = .error "node not in graph" := by
    unfold Particle.move RoomGraph.get_neighbors
    rw [if_neg hbad]
    rfl
  have hupd : pers.tracker.update mt.room_graph mt.sensor_model now none
      (moveD 0) (resD 0) = .error "node not in graph" := by
    unfold PersonTracker.update
    rw [hparts, List.enum_cons, List.mapM_cons]
    simp only [bind, Except.bind, pure, Except.pure, hmove]
  unfold MultiPersonTracker.step
  rw [hpeople]
  unfold stepPeople
  simp only [bind, Except.bind, pure, Except.pure, hupd]

/-- C6 counterexample (particle engine side): a `process_event` naming
a room absent from the graph succeeds and snaps every particle into
that room, and the next `step` raises from the neighbour lookup — the
unknown room is not ignored, and an error does reach the caller. -/
theorem c6_unknown_room_step_errors :
    ((mtAB.process_event (some "p") "ghost" 0 (fun _ => 0) (fun _ => 1/2)).bind
      (fun m => m.step 1 (fun _ _ => (1, 0)) (fun _ _ => 1/2))) =
      .error "node not in graph" := by
  obtain ⟨pers, hok, _, hparts, _⟩ :=
    process_event_new_person mtAB (some "p") "ghost" 0 (fun _ => 0) (fun _ => 1/2)
      rfl (by decide) (by decide) (by with_unfolding_all decide)
      (by intro k; constructor <;> norm_num)
  rw [hok]
  show Except.bind _ _ = _
  simp only [Except.bind]
  refine step_error_first_particle _ 1 _ _ (some "p") pers [] ⟨"ghost", 1⟩
    (List.replicate 99 ⟨"ghost", 1⟩) rfl ?_ ?_
  · rw [hparts]
    rfl
  · show "ghost" ∉ mtAB.room_graph.nodes
    decide

/-! ## C9 -/

/-- The 4-room path graph `r0 - r1 - r2 - r3`. -/
def g4 : RoomGraph :=
  ⟨[("r0", ["r1"]), ("r1", ["r0", "r2"]), ("r2", ["r1", "r3"]), ("r3", ["r2"])]⟩

/-- A stale single-event track in `r0`, last updated at `t = 0`. -/
def trkStale0 : Track := ⟨[⟨"r0", 0, 0, none⟩], 5, 0, 0⟩

/-- A second stale single-event track in `r0`, last updated at `t = 1`. -/
def trkStale1 : Track := ⟨[⟨"r0", 1, 1, none⟩], 5, 1, 1⟩

/-- A manager holding the two adjacent stale tracks, with the default
configuration (`oldest_track = 30*60`, `score_threshold = 2.5`). -/
def tmTwoStale : TrackManager :=
  { tracks := [trkStale0, trkStale1], max_track_length := 5,
    oldest_track := 30 * 60, max_tracks := 10, score_threshold := 5/2, graph := g4 }

/-- C9 (code bug): `cleanup_tracks` iterates over `self.tracks` while
removing from it, so removing the stale track at the cursor skips the
track right after it.  At `t = 10000`, `add_event("r3")` (distance 3
from both stale heads, over the 2.5 threshold, so the new event becomes
its own track) removes the first stale track but leaves the second —
idle for far longer than `oldest_track` — inside `get_tracks()`. -/
theorem c9_stale_track_survives_cleanup :
    (10000 : ℚ) - trkStale1.last_event_time > tmTwoStale.oldest_track ∧
    (tmTwoStale.add_event "r3" 10000).map TrackManager.get_tracks =
      .ok [[⟨"r0", 1, 1, none⟩], [⟨"r3", 10000, 10000, none⟩]] := by
  constructor
  · show (10000 : ℚ) - 1 > 30 * 60
    norm_num
  · with_unfolding_all rfl

/-! ## C7: candidate-selection lemmas -/

theorem ltDiff_irrefl (a : Option ℚ) : ltDiff a a = false := by
  cases a with
  | none => rfl
  | some x => simp [ltDiff]

theorem ltDiff_trans (a b c : Option ℚ) (h1 : ltDiff a b = true)
    (h2 : ltDiff b c = true) : ltDiff a c = true := by
  cases a <;> cases b <;> cases c <;> simp_all [ltDiff]
  all_goals linarith

theorem ltDiff_false_lt (a b c : Option ℚ) (h1 : ltDiff a b = false)
    (h2 : ltDiff a c = true) : ltDiff b c = true := by
  cases a <;> cases b <;> cases c <;> simp_all [ltDiff]
  all_goals linarith

/-- Specification of the aligned-candidate loop: when it returns a
candidate, that candidate is aligned and drawn from the list (or is the
incoming best), no aligned list entry has a strictly smaller speed
difference, and it does not exceed the incoming best. -/
theorem chooseBestAligned_spec :
    ∀ (l : List Metric) (best : Option Metric) (b : Metric),
      chooseBestAligned best l = some b →
      ((b ∈ l ∧ b.alignment = true) ∨ best = some b) ∧
      (∀ m ∈ l, m.alignment = true → ltDiff m.speed_diff b.speed_diff = false) ∧
      (∀ m0, best = some m0 → ltDiff m0.speed_diff b.speed_diff = false) := by
  intro l
  induction l with
  | nil =>
    intro best b hb
    simp only [chooseBestAligned] at hb
    refine ⟨Or.inr hb, by simp, ?_⟩
    intro m0 hm0
    rw [hm0] at hb
    rw [Option.some_inj.mp hb]
    exact ltDiff_irrefl _
  | cons m ms ih =>
    intro best b hb
    simp only [chooseBestAligned] at hb
    split at hb
    case isTrue hcond =>
      obtain ⟨hmem, hmin, hbest'⟩ := ih (some m) b hb
      have hmb : ltDiff m.speed_diff b.speed_diff = false := hbest' m rfl
      have hmal : m.alignment = true := ((Bool.and_eq_true _ _).mp hcond).1
      refine ⟨?_, ?_, ?_⟩
      · rcases hmem with ⟨hin, hal⟩ | heq
        · exact Or.inl ⟨List.mem_cons_of_mem m hin, hal⟩
        · exact Or.inl ⟨by rw [← Option.some_inj.mp heq]; exact List.mem_cons_self m ms,
            by rw [← Option.some_inj.mp heq]; exact hmal⟩
      · intro x hx hxal
        rcases List.mem_cons.mp hx with rfl | hxs
        · exact hmb
        · exact hmin x hxs hxal
      · intro m0 hm0
        rw [hm0] at hcond
        have hlt : ltDiff m.speed_diff m0.speed_diff = true := ((Bool.and_eq_true _ _).mp hcond).2
        by_contra hc
        have hc' : ltDiff m0.speed_diff b.speed_diff = true := by
          cases h : ltDiff m0.speed_diff b.speed_diff with
          | true => rfl
          | false => exact absurd h hc
        exact absurd (ltDiff_trans _ _ _ hlt hc') (by rw [hmb]; simp)
    case isFalse hcond =>
      obtain ⟨hmem, hmin, hbest'⟩ := ih best b hb
      refine ⟨?_, ?_, hbest'⟩
      · rcases hmem with ⟨hin, hal⟩ | heq
        · exact Or.inl ⟨List.mem_cons_of_mem m hin, hal⟩
        · exact Or.inr heq
      · intro x hx hxal
        rcases List.mem_cons.mp hx with rfl | hxs
        · -- the condition failed although `x` is aligned, so the running
          -- best exists and `x` is not strictly better than it
          cases hbest : best with
          | none => simp [hbest, hxal] at hcond
          | some b0 =>
            rw [hbest] at hcond
            simp only [hxal, Bool.true_and] at hcond
            have hxb0 : ltDiff x.speed_diff b0.speed_diff = false :=
              Bool.not_eq_true _ ▸ (by simpa using hcond)
            have hb0b : ltDiff b0.speed_diff b.speed_diff = false := hbest' b0 hbest
            by_contra hc
            have hc' : ltDiff x.speed_diff b.speed_diff = true := by
              cases h : ltDiff x.speed_diff b.speed_diff with
              | true => rfl
              | false => exact absurd h hc
            have := ltDiff_false_lt _ _ _ hxb0 hc'
            rw [hb0b] at this
            exact absurd this (by simp)
        · exact hmin x hxs hxal

/-- When the aligned loop selects nothing, the incoming best was `None`
and no list entry is aligned. -/
theorem chooseBestAligned_none :
    ∀ (l : List Metric) (best : Option Metric),
      chooseBestAligned best l = none →
      best = none ∧ ∀ m ∈ l, m.alignment = false := by
  intro l
  induction l with
  | nil =>
    intro best hb
    exact ⟨hb, by simp⟩
  | cons m ms ih =>
    intro best hb
    simp only [chooseBestAligned] at hb
    split at hb
    case isTrue hcond =>
      obtain ⟨hnone, _⟩ := ih (some m) hb
      exact absurd hnone (by simp)
    case isFalse hcond =>
      obtain ⟨hnone, hall⟩ := ih best hb
      refine ⟨hnone, ?_⟩
      intro x hx
      rcases List.mem_cons.mp hx with rfl | hxs
      · rw [hnone] at hcond
        simpa using hcond
      · exact hall x hxs

/-- Specification of Python's `min(candidates, key=base_score)` fold. -/
theorem minBase_spec :
    ∀ (ms : List Metric) (cur : Metric),
      (minBase cur ms = cur ∨ minBase cur ms ∈ ms) ∧
      (minBase cur ms).base_score ≤ cur.base_score ∧
      (∀ m ∈ ms, (minBase cur ms).base_score ≤ m.base_score) := by
  intro ms
  induction ms with
  | nil => intro cur; exact ⟨Or.inl rfl, le_refl _, by simp⟩
  | cons m rest ih =>
    intro cur
    simp only [minBase]
    by_cases hlt : m.base_score < cur.base_score
    · rw [if_pos hlt]
      obtain ⟨hmem, hle, hall⟩ := ih m
      refine ⟨?_, ?_, ?_⟩
      · rcases hmem with heq | hin
        · exact Or.inr (by rw [heq]; exact List.mem_cons_self m rest)
        · exact Or.inr (List.mem_cons_of_mem m hin)
      · omega
      · intro x hx
        rcases List.mem_cons.mp hx with rfl | hxs
        · exact hle
        · exact hall x hxs
    · rw [if_neg hlt]
      obtain ⟨hmem, hle, hall⟩ := ih cur
      refine ⟨?_, hle, ?_⟩
      · rcases hmem with heq | hin
        · exact Or.inl heq
        · exact Or.inr (List.mem_cons_of_mem m hin)
      · intro x hx
        rcases List.mem_cons.mp hx with rfl | hxs
        · omega
        · exact hall x hxs

/-- The full candidate selection of `try_associate_track`: `None` only
on an empty candidate list; otherwise the selected candidate is a list
member; when some candidate is aligned the selection is aligned with no
aligned candidate strictly better on speed difference; when no
candidate is aligned the selection has the minimal base score. -/
theorem chooseBest_spec (candidates : List Metric) :
    (chooseBest candidates = none → candidates = []) ∧
    (∀ b, chooseBest candidates = some b →
      b ∈ candidates ∧
      ((∃ m ∈ candidates, m.alignment = true) →
        b.alignment = true ∧
        ∀ m ∈ candidates, m.alignment = true →
          ltDiff m.speed_diff b.speed_diff = false) ∧
      ((∀ m ∈ candidates, m.alignment = false) →
        ∀ m ∈ candidates, b.base_score ≤ m.base_score)) := by
  constructor
  · intro hnone
    unfold chooseBest at hnone
    cases hcba : chooseBestAligned none candidates with
    | some b0 => rw [hcba] at hnone; exact absurd hnone (by simp)
    | none =>
      rw [hcba] at hnone
      cases hc : candidates with
      | nil => rfl
      | cons c cs => rw [hc] at hnone; exact absurd hnone (by simp)
  · intro b hb
    unfold chooseBest at hb
    cases hcba : chooseBestAligned none candidates with
    | some b0 =>
      rw [hcba] at hb
      have hbb0 : b0 = b := Option.some_inj.mp hb
      subst hbb0
      obtain ⟨hmem, hmin, _⟩ := chooseBestAligned_spec candidates none b0 hcba
      rcases hmem with ⟨hin, hal⟩ | heq
      · refine ⟨hin, fun _ => ⟨hal, hmin⟩, ?_⟩
        intro hnal
        exact absurd hal (by rw [hnal b0 hin]; simp)
      · exact absurd heq (by simp)
    | none =>
      rw [hcba] at hb
      obtain ⟨_, hallnal⟩ := chooseBestAligned_none candidates none hcba
      cases hc : candidates with
      | nil => rw [hc] at hb; exact absurd hb (by simp)
      | cons c cs =>
        rw [hc] at hb
        have hbmin : minBase c cs = b := Option.some_inj.mp hb
        obtain ⟨hmem, hle, hall⟩ := minBase_spec cs c
        rw [hbmin] at hmem hle hall
        refine ⟨?_, ?_, ?_⟩
        · rcases hmem with heq | hin
          · rw [heq]; exact List.mem_cons_self c cs
          · exact List.mem_cons_of_mem c hin
        · rintro ⟨x, hx, hxal⟩
          exact absurd hxal (by rw [hallnal x (hc ▸ hx)]; simp)
        · intro _ x hx
          rcases List.mem_cons.mp hx with rfl | hxs
          · exact hle
          · exact hall x hxs

/-- Every metric produced by the `metrics` loop carries the in-range
position of its track. -/
theorem computeMetrics_idx (g : RoomGraph) (area : String) (event_time : ℚ) :
    ∀ (ts : List Track) (i : ℕ) (ms : List Metric),
      computeMetrics g area event_time i ts = .ok ms →
      ∀ m ∈ ms, i ≤ m.idx ∧ m.idx < i + ts.length := by
  intro ts
  induction ts with
  | nil =>
    intro i ms h m hm
    simp only [computeMetrics] at h
    injection h with h'
    rw [← h'] at hm
    exact absurd hm (List.not_mem_nil m)
  | cons t rest ih =>
    intro i ms h m hm
    simp only [computeMetrics] at h
    cases hc : computeMetric g area event_time t with
    | error e => rw [hc] at h; exact absurd h (by simp [bind, Except.bind])
    | ok v =>
      rw [hc] at h
      cases hr : computeMetrics g area event_time (i + 1) rest with
      | error e =>
        rw [hr] at h
        exact absurd h (by simp [bind, Except.bind])
      | ok vs =>
        rw [hr] at h
        simp only [bind, Except.bind, pure, Except.pure] at h
        have hms : ms = ⟨i, v.1, v.2.1, v.2.2⟩ :: vs := (Except.ok.injEq _ _ |>.mp h).symm
        rw [hms] at hm
        rcases List.mem_cons.mp hm with rfl | hms'
        · simp
        · have := ih (i + 1) vs hr m hms'
          simp only [List.length_cons]
          omega

/-- C7 (amended): in `try_associate_track`, only tracks with
`base_score` strictly below the threshold are candidates; an aligned
candidate is preferred, and among aligned candidates the one with the
lowest speed-consistency discrepancy is selected; when **no** candidate
is aligned, the candidate with the lowest `base_score` is selected
(speed consistency and the presence of timing data play no role in
that fallback); the selected track absorbs the new single-event track
by merge, and the new track is registered only when no candidate is
under the threshold. -/
theorem c7_selection_rule (now : ℚ) (tm : TrackManager) (nt : Track) (hd : Event)
    (hhd : nt.event_list.head? = some hd) (ms : List Metric)
    (hm : computeMetrics tm.graph hd.area hd.first_presence_time 0 tm.tracks = .ok ms)
    (hne : tm.tracks ≠ []) :
    (chooseBest (ms.filter fun m => (m.base_score : ℚ) < tm.score_threshold) = none →
      (ms.filter fun m => (m.base_score : ℚ) < tm.score_threshold) = [] ∧
      tm.try_associate_track nt now = .ok { tm with tracks := tm.tracks ++ [nt] }) ∧
    (∀ b, chooseBest (ms.filter fun m => (m.base_score : ℚ) < tm.score_threshold) = some b →
      ∃ bt, tm.tracks[b.idx]? = some bt ∧
        tm.try_associate_track nt now =
          .ok { tm with tracks := tm.tracks.set b.idx (bt.merge_tracks nt now) } ∧
        b ∈ (ms.filter fun m => (m.base_score : ℚ) < tm.score_threshold) ∧
        ((∃ m ∈ (ms.filter fun m => (m.base_score : ℚ) < tm.score_threshold),
            m.alignment = true) →
          b.alignment = true ∧
          ∀ m ∈ (ms.filter fun m => (m.base_score : ℚ) < tm.score_threshold),
            m.alignment = true → ltDiff m.speed_diff b.speed_diff = false) ∧
        ((∀ m ∈ (ms.filter fun m => (m.base_score : ℚ) < tm.score_threshold),
            m.alignment = false) →
          ∀ m ∈ (ms.filter fun m => (m.base_score : ℚ) < tm.score_threshold),
            b.base_score ≤ m.base_score)) := by
  have hlen : tm.tracks.length > 0 := List.length_pos.mpr hne
  have harea : nt.get_area = some hd.area := by
    unfold Track.get_area Track.get_head
    rw [hhd]
    rfl
  have hgethd : nt.get_head = some hd := hhd
  have hassoc : tm.try_associate_track nt now =
      (match chooseBest (ms.filter fun m => (m.base_score : ℚ) < tm.score_threshold) with
       | some best =>
         match tm.tracks[best.idx]? with
         | some best_track =>
           .ok { tm with
                 tracks := tm.tracks.set best.idx (best_track.merge_tracks nt now) }
         | none => .error "candidate index out of range"
       | none => .ok { tm with tracks := tm.tracks ++ [nt] }) := by
    unfold TrackManager.try_associate_track
    rw [if_pos hlen, harea, hgethd]
    simp only [bind, Except.bind, pure, Except.pure, hm]
  constructor
  · intro hnone
    refine ⟨(chooseBest_spec _).1 hnone, ?_⟩
    rw [hassoc, hnone]
  · intro b hb
    obtain ⟨hmem, haligned, hbase⟩ := (chooseBest_spec _).2 b hb
    have hbms : b ∈ ms := List.mem_of_mem_filter hmem
    have hidx : b.idx < tm.tracks.length := by
      have := computeMetrics_idx tm.graph hd.area hd.first_presence_time
        tm.tracks 0 ms hm b hbms
      omega
    refine ⟨tm.tracks[b.idx], List.getElem?_eq_getElem hidx, ?_, hmem, haligned, hbase⟩
    rw [hassoc, hb]
    simp only [List.getElem?_eq_getElem hidx]

/-- A track that moved `r5 → r2` (head `r2` at `t=10`, previous `r5` at
`t=0`). -/
def trA : Track := ⟨[⟨"r2", 10, 10, none⟩, ⟨"r5", 0, 0, none⟩], 5, 10, 0⟩

/-- A track that moved `r2 → r3` (head `r3` at `t=5`, previous `r2` at
`t=0`). -/
def trB : Track := ⟨[⟨"r3", 5, 5, none⟩, ⟨"r2", 0, 0, none⟩], 5, 5, 0⟩

/-- The fresh single-event track for the new event at `r1`, `t=20`. -/
def ntC7 : Track := (Track.init 20).add_event "r1" 20

/-- A manager holding `trA` and `trB` over the 6-room path graph, with
the default threshold `2.5`. -/
def tmC7 : TrackManager :=
  { tracks := [trA, trB], max_track_length := 5, oldest_track := 30 * 60,
    max_tracks := 10, score_threshold := 5/2, graph := pathG }

/-- The metrics the code computes for `tmC7` against the `r1@20` event:
`trA` has base score 1 and speed difference `1/5`; `trB` has base score
2 and speed difference `1/15`; neither is directionally aligned. -/
def msC7 : List Metric := [⟨0, 1, false, some (1/5)⟩, ⟨1, 2, false, some (1/15)⟩]

theorem c7_selection_rule_witness :
    ntC7.event_list.head? = some ⟨"r1", 20, 20, none⟩ ∧
    computeMetrics tmC7.graph "r1" 20 0 tmC7.tracks = .ok msC7 ∧
    (∃ bt, tmC7.tracks[(0 : ℕ)]? = some bt ∧
      tmC7.try_associate_track ntC7 20 =
        .ok { tmC7 with tracks := tmC7.tracks.set 0 (bt.merge_tracks ntC7 20) }) := by
  have hms : computeMetrics tmC7.graph "r1" 20 0 tmC7.tracks = .ok msC7 := by
    with_unfolding_all rfl
  have hch : chooseBest (msC7.filter fun m => (m.base_score : ℚ) < tmC7.score_threshold) =
      some ⟨0, 1, false, some (1/5)⟩ := by
    with_unfolding_all rfl
  obtain ⟨bt, h1, h2, _⟩ :=
    (c7_selection_rule 20 tmC7 ntC7 ⟨"r1", 20, 20, none⟩ rfl msC7 hms (by decide)).2
      ⟨0, 1, false, some (1/5)⟩ hch
  exact ⟨rfl, hms, ⟨bt, h1, h2⟩⟩

/-- C7 counterexample: both candidate tracks are under the threshold,
neither is aligned, both carry timing data, and `trB` (base 2) has the
strictly smaller speed discrepancy (`1/15 < 1/5`); the claim therefore
selects `trB`, but the code merges the new event into `trA` (base 1) —
the min-base fallback is used even though timing data exists. -/
theorem c7_speed_diff_not_used_counterexample :
    computeMetrics tmC7.graph "r1" 20 0 tmC7.tracks = .ok msC7 ∧
    ((1 : ℚ) < tmC7.score_threshold ∧ (2 : ℚ) < tmC7.score_threshold) ∧
    (msC7.map Metric.alignment = [false, false]) ∧
    ltDiff (some (1/15)) (some (1/5)) = true ∧
    (tmC7.try_associate_track ntC7 20).map
        (fun t => t.tracks.map fun tr => tr.event_list.map Event.area) =
      .ok [["r1", "r2", "r5"], ["r3", "r2"]] := by
  refine ⟨by with_unfolding_all rfl, ?_, rfl, by with_unfolding_all rfl, ?_⟩
  · constructor <;> norm_num [tmC7]
  · with_unfolding_all rfl

/-! ## C8: merge_tracks and event multisets -/

/-- The identity of an event for merge bookkeeping: its room and its
first-presence time (`merge_tracks` never alters either). -/
def eventKey (e : Event) : String × ℚ := (e.area, e.first_presence_time)

/-- The full interval boundary of an event: room, first-presence time
and falling-edge time. -/
def intervalKey (e : Event) : String × ℚ × Option ℚ :=
  (e.area, e.first_presence_time, e.last_falling_edge_time)

theorem eventKey_endEvent (e : Event) (t : ℚ) : eventKey (e.endEvent t) = eventKey e := rfl

theorem setHeadEnd_key (l : List Event) (t : ℚ) :
    (setHeadEnd l t).map eventKey = l.map eventKey := by
  cases l <;> rfl

theorem endHeadIfZero_key (l : List Event) (t : ℚ) :
    (endHeadIfZero l t).map eventKey = l.map eventKey := by
  cases l with
  | nil => rfl
  | cons e es =>
    by_cases h : e.get_duration = 0
    · simp [endHeadIfZero, h, eventKey_endEvent]
    · simp [endHeadIfZero, h]

theorem prependFold_key :
    ∀ (o s : List Event),
      (↑((prependFold s o).map eventKey) : Multiset (String × ℚ)) =
        ↑(s.map eventKey) + ↑(o.map eventKey) := by
  intro o
  induction o with
  | nil => intro s; simp [prependFold]
  | cons e rest ih =>
    intro s
    show (↑((prependFold (e :: endHeadIfZero s e.first_presence_time) rest).map eventKey)
        : Multiset (String × ℚ)) = _
    rw [ih]
    simp only [List.map_cons, endHeadIfZero_key, ← Multiset.cons_coe,
      ← Multiset.singleton_add]
    abel

theorem mergeInner_key (now : ℚ) (cur : Event) :
    ∀ (tm newList : List Event),
      ((↑((mergeInner now cur newList tm).1.map eventKey) : Multiset (String × ℚ)) +
        ↑((mergeInner now cur newList tm).2.map eventKey)) =
        ↑(newList.map eventKey) + ↑(tm.map eventKey) := by
  intro tm
  induction tm with
  | nil => intro newList; simp [mergeInner]
  | cons t rest ih =>
    intro newList
    simp only [mergeInner]
    split
    · rw [ih (setHeadEnd newList t.first_presence_time ++ [t])]
      simp only [List.map_append, List.map_cons, List.map_nil, setHeadEnd_key,
        ← Multiset.coe_add, ← Multiset.cons_coe, ← Multiset.singleton_add,
        Multiset.coe_nil]
      abel
    · rfl

theorem mergeOuter_key (now : ℚ) :
    ∀ (cur newList tmList : List Event),
      (↑((mergeOuter now newList cur tmList).map eventKey) : Multiset (String × ℚ)) =
        ↑(newList.map eventKey) + ↑(cur.map eventKey) + ↑(tmList.map eventKey) := by
  intro cur
  induction cur with
  | nil =>
    intro newList tmList
    simp [mergeOuter, Multiset.coe_add]
  | cons c cs ih =>
    intro newList tmList
    show (↑((mergeOuter now ((mergeInner now c newList tmList).1 ++ [c]) cs
        (mergeInner now c newList tmList).2).map eventKey) : Multiset (String × ℚ)) = _
    rw [ih]
    have hinner := mergeInner_key now c tmList newList
    simp only [List.map_append, List.map_cons, List.map_nil,
      ← Multiset.coe_add, ← Multiset.cons_coe, ← Multiset.singleton_add,
      Multiset.coe_nil] at hinner ⊢
    calc (↑((mergeInner now c newList tmList).1.map eventKey) + ({eventKey c} + 0)
            : Multiset (String × ℚ)) +
          ↑(cs.map eventKey) + ↑((mergeInner now c newList tmList).2.map eventKey)
        = (↑((mergeInner now c newList tmList).1.map eventKey) +
            ↑((mergeInner now c newList tmList).2.map eventKey)) +
          ({eventKey c} + 0) + ↑(cs.map eventKey) := by abel
      _ = ↑(newList.map eventKey) + ({eventKey c} + ↑(cs.map eventKey)) +
          ↑(tmList.map eventKey) := by rw [hinner]; abel

/-- The multiset of `(room, first_presence_time)` pairs of `merge_tracks`
is exactly the union of the two tracks' events. -/
theorem merge_tracks_key (now : ℚ) (A B : Track)
    (hA : A.event_list ≠ []) (hB : B.event_list ≠ []) :
    (↑((A.merge_tracks B now).event_list.map eventKey) : Multiset (String × ℚ)) =
      ↑(A.event_list.map eventKey) + ↑(B.event_list.map eventKey) := by
  unfold Track.merge_tracks
  by_cases hlt : A.last_event_time < B.first_event_time
  · rw [if_pos hlt]
    exact prependFold_key B.event_list A.event_list
  · rw [if_neg hlt]
    match hBe : B.event_list, hAe : A.event_list with
    | [], _ => exact absurd hBe hB
    | t :: trest, [] => exact absurd hAe hA
    | t :: trest, c :: crest =>
      show (↑(List.map eventKey
          (if t.get_time_since_last_trigger now < c.get_time_since_last_trigger now then
            { A with event_list := mergeOuter now [t] (c :: crest) trest }
          else
            { A with event_list := mergeOuter now [c] crest (t :: trest) }).event_list)
          : Multiset (String × ℚ)) =
        ↑(List.map eventKey (c :: crest)) + ↑(List.map eventKey (t :: trest))
      by_cases hts : t.get_time_since_last_trigger now < c.get_time_since_last_trigger now
      · rw [if_pos hts]
        show (↑((mergeOuter now [t] (c :: crest) trest).map eventKey)
            : Multiset (String × ℚ)) = _
        rw [mergeOuter_key]
        simp only [List.map_cons, List.map_nil, ← Multiset.cons_coe,
          ← Multiset.singleton_add, Multiset.coe_nil]
        abel
      · rw [if_neg hts]
        show (↑((mergeOuter now [c] crest (t :: trest)).map eventKey)
            : Multiset (String × ℚ)) = _
        rw [mergeOuter_key]
        simp only [List.map_cons, List.map_nil, ← Multiset.cons_coe,
          ← Multiset.singleton_add, Multiset.coe_nil]
        abel

/-- C8 (amended): `merge_tracks` preserves the chronological multiset
of events as `(room, first-presence-time)` pairs — the union of both
tracks' events — and that multiset is the same whichever track
initiates the merge.  Order-independence of the full interval
boundaries fails, however: the falling-edge times depend on the merge
direction (see the counterexample). -/
theorem c8_merge_preserves_event_multiset (now : ℚ) (A B : Track)
    (hA : A.event_list ≠ []) (hB : B.event_list ≠ []) :
    ((↑((A.merge_tracks B now).event_list.map eventKey) : Multiset (String × ℚ)) =
      ↑(A.event_list.map eventKey) + ↑(B.event_list.map eventKey)) ∧
    ((↑((A.merge_tracks B now).event_list.map eventKey) : Multiset (String × ℚ)) =
      ↑((B.merge_tracks A now).event_list.map eventKey)) := by
  refine ⟨merge_tracks_key now A B hA hB, ?_⟩
  rw [merge_tracks_key now A B hA hB, merge_tracks_key now B A hB hA]
  exact add_comm _ _

/-- A single open impulse event in room `x` at `t = 0`. -/
def trX : Track := ⟨[⟨"x", 0, 0, none⟩], 5, 0, 0⟩

/-- A single open impulse event in room `y` at `t = 10`. -/
def trY : Track := ⟨[⟨"y", 10, 10, none⟩], 5, 10, 10⟩

theorem c8_merge_preserves_event_multiset_witness :
    trX.event_list ≠ [] ∧ trY.event_list ≠ [] ∧
    ((↑((trX.merge_tracks trY 20).event_list.map eventKey) : Multiset (String × ℚ)) =
      ↑(trX.event_list.map eventKey) + ↑(trY.event_list.map eventKey)) ∧
    ((↑((trX.merge_tracks trY 20).event_list.map eventKey) : Multiset (String × ℚ)) =
      ↑((trY.merge_tracks trX 20).event_list.map eventKey)) :=
  ⟨by decide, by decide,
   (c8_merge_preserves_event_multiset 20 trX trY (by decide) (by decide)).1,
   (c8_merge_preserves_event_multiset 20 trX trY (by decide) (by decide)).2⟩

/-- C8 counterexample: merging `trY` into `trX` takes the prepend
branch and closes the open `x` event at `t = 10`, while merging `trX`
into `trY` takes the interleaving branch and leaves it open — the two
directions produce different falling-edge boundaries, so
`merge_tracks` is not order-independent with respect to final interval
boundaries. -/
theorem c8_merge_not_order_independent :
    (trX.merge_tracks trY 20).event_list.map intervalKey =
      [("y", 10, none), ("x", 0, some 10)] ∧
    (trY.merge_tracks trX 20).event_list.map intervalKey =
      [("y", 10, none), ("x", 0, none)] ∧
    ¬ ((↑((trX.merge_tracks trY 20).event_list.map intervalKey)
          : Multiset (String × ℚ × Option ℚ)) =
        ↑((trY.merge_tracks trX 20).event_list.map intervalKey)) := by
  refine ⟨by with_unfolding_all rfl, by with_unfolding_all rfl, ?_⟩
  intro h
  rw [show (trX.merge_tracks trY 20).event_list.map intervalKey =
      [("y", 10, none), ("x", 0, some 10)] from by with_unfolding_all rfl,
    show (trY.merge_tracks trX 20).event_list.map intervalKey =
      [("y", 10, none), ("x", 0, none)] from by with_unfolding_all rfl] at h
  have := Multiset.coe_eq_coe.mp h
  have hmem := this.mem_iff (a := ("x", (0 : ℚ), some (10 : ℚ)))
  simp at hmem

end AreaControl
